import Mathlib

/-!
Shallow embedding of `src/PMNS_NSI.cxx` (class `OscProb::PMNS_NSI`).

The instance state of a `PMNS_NSI` object is modelled as a structure whose
fields are the data members read or written by the methods in the source
file: the NSI coefficient store `fEps`, the eigensystem-valid flag `fGotES`,
the Hamiltonian `fHam`, and the base-class state consumed by `UpdateHam`
(`fHms`, `fPath`, `fEnergy`, `fIsNuBar`).  C++ `complex<double>` is modelled
as `ℂ`, `double` as `ℝ`, `int` as `ℤ`.  The 3×3 arrays are modelled as total
functions `ℤ → ℤ → ℂ`; the source only ever reads or writes entries with
`0 ≤ i ≤ j ≤ 2`, which the index validation in `SetEps`/`GetEps` and the
loop bounds in `UpdateHam` enforce.  Each method becomes a function from the
instance state (plus its arguments) to the new instance state and/or its
return value; console output (`cout` diagnostics) has no effect on the data
and is not modelled.
-/

open Classical

namespace OscProb

/-- A matter path record: the fields of `fPath` read by `UpdateHam`
(`fPath.density` and `fPath.zoa`). -/
structure NuPath where
  density : ℝ
  zoa : ℝ

/-- Modelled from the spec: the static unit-conversion constants of the base
class `PMNS_Base` (`kGeV2eV`, the GeV-to-eV conversion constant; `kK2` and
`kGf`, the Fermi constant with its unit conversion).  The base class is not
part of the source file, so the constants are kept abstract: every theorem
below holds for all values of them. -/
structure BaseConsts where
  kGeV2eV : ℝ
  kK2 : ℝ
  kGf : ℝ

/-- The flavour count `fNumNus`.  `PMNS_NSI` is restricted to 3 neutrino
flavours (constructor comment, line 27), so the base-class field is the
constant 3 here. -/
def fNumNus : ℤ := 3

/-- The instance state of a `PMNS_NSI` object: the data members read or
written by the methods in `src/PMNS_NSI.cxx`. -/
structure PMNS_NSI where
  fEps : ℤ → ℤ → ℂ
  fGotES : Bool
  fHam : ℤ → ℤ → ℂ
  fHms : ℤ → ℤ → ℂ
  fPath : NuPath
  fEnergy : ℝ
  fIsNuBar : Bool

/-- The complex coefficient value built by `SetEps` (lines 106-110):
`complex h = val; if(flvi != flvj) h *= complex(cos(phase), sin(phase));
else if(flvi == 0) h += 1;`. -/
noncomputable def nsiVal (flvi flvj : ℤ) (val phase : ℝ) : ℂ :=
  if flvi ≠ flvj then (val : ℂ) * ⟨Real.cos phase, Real.sin phase⟩
  else if flvi = 0 then (val : ℂ) + 1
  else (val : ℂ)

/-- `PMNS_NSI::SetEps` (lines 91-116).  If `flvi > flvj` the indices are
swapped (lines 93-99); if the pair is still invalid the method returns
without mutating (lines 100-104); otherwise the coefficient value is built
(lines 106-110), `fGotES` is multiplied by the boolean
`fEps[flvi][flvj] == h` (line 112), and the entry is overwritten
(line 114). -/
noncomputable def SetEps (s : PMNS_NSI) (flvi flvj : ℤ) (val phase : ℝ) :
    PMNS_NSI :=
  let i := if flvi > flvj then flvj else flvi
  let j := if flvi > flvj then flvi else flvj
  if i < 0 ∨ i > 2 ∨ j < i ∨ j > 2 then s
  else
    let h := nsiVal i j val phase
    { s with
      fGotES := if s.fEps i j = h then s.fGotES else false
      fEps := fun a b => if a = i ∧ b = j then h else s.fEps a b }

/-- `PMNS_NSI::GetEps` (lines 131-148), as a state transformer returning the
pair (return value, instance state after the call).  The method body swaps a
reversed pair (lines 133-139), returns `zero` on an invalid pair
(lines 140-144) and the stored entry otherwise (line 146); it assigns no
data member, so the state component is the input state in every branch. -/
noncomputable def GetEpsM (s : PMNS_NSI) (flvi flvj : ℤ) : ℂ × PMNS_NSI :=
  let i := if flvi > flvj then flvj else flvi
  let j := if flvi > flvj then flvi else flvj
  if i < 0 ∨ i > 2 ∨ j < i ∨ j > 2 then (0, s)
  else (s.fEps i j, s)

/-- The return value of `PMNS_NSI::GetEps`. -/
noncomputable def GetEps (s : PMNS_NSI) (flvi flvj : ℤ) : ℂ :=
  (GetEpsM s flvi flvj).1

/-- `PMNS_NSI::SetNSI` (lines 58-71): six `SetEps` calls in source order. -/
noncomputable def SetNSI (s : PMNS_NSI)
    (eps_ee eps_emu eps_etau eps_mumu eps_mutau eps_tautau
     delta_emu delta_etau delta_mutau : ℝ) : PMNS_NSI :=
  SetEps (SetEps (SetEps (SetEps (SetEps (SetEps s
    0 0 eps_ee 0)
    1 1 eps_mumu 0)
    2 2 eps_tautau 0)
    0 1 eps_emu delta_emu)
    0 2 eps_etau delta_etau)
    1 2 eps_mutau delta_mutau

/-- `PMNS_NSI::SetEps_ee` (line 159). -/
noncomputable def SetEps_ee (s : PMNS_NSI) (a : ℝ) : PMNS_NSI :=
  SetEps s 0 0 a 0

/-- `PMNS_NSI::SetEps_mumu` (line 170). -/
noncomputable def SetEps_mumu (s : PMNS_NSI) (a : ℝ) : PMNS_NSI :=
  SetEps s 1 1 a 0

/-- `PMNS_NSI::SetEps_tautau` (line 181). -/
noncomputable def SetEps_tautau (s : PMNS_NSI) (a : ℝ) : PMNS_NSI :=
  SetEps s 2 2 a 0

/-- `PMNS_NSI::SetEps_emu` (line 193). -/
noncomputable def SetEps_emu (s : PMNS_NSI) (a phi : ℝ) : PMNS_NSI :=
  SetEps s 0 1 a phi

/-- `PMNS_NSI::SetEps_etau` (line 205). -/
noncomputable def SetEps_etau (s : PMNS_NSI) (a phi : ℝ) : PMNS_NSI :=
  SetEps s 0 2 a phi

/-- `PMNS_NSI::SetEps_mutau` (line 217). -/
noncomputable def SetEps_mutau (s : PMNS_NSI) (a phi : ℝ) : PMNS_NSI :=
  SetEps s 1 2 a phi

/-- `PMNS_NSI::UpdateHam` (lines 227-244).  `lv = 2 * kGeV2eV * fEnergy`;
`kr2GNe = kK2 * M_SQRT2 * kGf`, then `kr2GNe *= fPath.density * fPath.zoa`;
the double loop writes `fHam[i][j]` for `0 ≤ i ≤ j < fNumNus`, and no other
entry, choosing the neutrino or antineutrino formula by `fIsNuBar`
(lines 239-240). -/
noncomputable def UpdateHam (c : BaseConsts) (s : PMNS_NSI) : PMNS_NSI :=
  let lv : ℝ := 2 * c.kGeV2eV * s.fEnergy
  let kr2GNe : ℝ := c.kK2 * Real.sqrt 2 * c.kGf * (s.fPath.density * s.fPath.zoa)
  { s with
    fHam := fun i j =>
      if 0 ≤ i ∧ i ≤ j ∧ j < fNumNus then
        if s.fIsNuBar = false then
          s.fHms i j / (lv : ℂ) + (kr2GNe : ℂ) * s.fEps i j
        else
          star (s.fHms i j / (lv : ℂ) - (kr2GNe : ℂ) * s.fEps i j)
      else s.fHam i j }

/-- `PMNS_NSI::PMNS_NSI` (lines 29-33).  Modelled from the spec: the base
constructor `PMNS_Fast()` and the call `SetStdPath()` belong to the
out-of-scope propagation engine (not in the source file) and produce some
base-class state, abstracted here as the argument `base`.  The member
initializer `fEps()` value-initializes every entry of the coefficient array
to zero, and the constructor body then calls
`SetNSI(0.,0.,0.,0.,0.,0.,0.,0.,0.)`. -/
noncomputable def init (base : PMNS_NSI) : PMNS_NSI :=
  SetNSI { base with fEps := fun _ _ => 0 } 0 0 0 0 0 0 0 0 0

/-! ### Unfolding lemmas shared by the claim theorems -/

/-- For a pair already in order and in range, the swap branch of `SetEps` is
skipped and the validity guard passes, leaving the two field updates. -/
theorem setEps_valid (s : PMNS_NSI) (flvi flvj : ℤ) (val phase : ℝ)
    (h0 : 0 ≤ flvi) (hij : flvi ≤ flvj) (h2 : flvj ≤ 2) :
    SetEps s flvi flvj val phase =
      { s with
        fGotES := if s.fEps flvi flvj = nsiVal flvi flvj val phase then
            s.fGotES else false
        fEps := fun a b =>
          if a = flvi ∧ b = flvj then nsiVal flvi flvj val phase
          else s.fEps a b } := by
  have hs : ¬ flvi > flvj := not_lt.mpr hij
  simp only [SetEps, if_neg hs]
  rw [if_neg (by omega : ¬ (flvi < 0 ∨ flvi > 2 ∨ flvj < flvi ∨ flvj > 2))]

/-- For a pair already in order and in range, `GetEps` returns the stored
entry. -/
theorem getEps_valid (s : PMNS_NSI) (flvi flvj : ℤ)
    (h0 : 0 ≤ flvi) (hij : flvi ≤ flvj) (h2 : flvj ≤ 2) :
    GetEps s flvi flvj = s.fEps flvi flvj := by
  have hs : ¬ flvi > flvj := not_lt.mpr hij
  simp only [GetEps, GetEpsM, if_neg hs]
  rw [if_neg (by omega : ¬ (flvi < 0 ∨ flvi > 2 ∨ flvj < flvi ∨ flvj > 2))]

/-- For an index pair inside the double loop's range, `UpdateHam` writes the
entry chosen by `fIsNuBar`, with the constants grouped as in the source. -/
theorem updateHam_fHam_of_le (c : BaseConsts) (s : PMNS_NSI) (i j : ℤ)
    (h0 : 0 ≤ i) (hij : i ≤ j) (h2 : j ≤ 2) :
    (UpdateHam c s).fHam i j =
      if s.fIsNuBar = false then
        s.fHms i j / ((2 * c.kGeV2eV * s.fEnergy : ℝ) : ℂ)
          + ((c.kK2 * Real.sqrt 2 * c.kGf *
              (s.fPath.density * s.fPath.zoa) : ℝ) : ℂ) * s.fEps i j
      else
        star (s.fHms i j / ((2 * c.kGeV2eV * s.fEnergy : ℝ) : ℂ)
          - ((c.kK2 * Real.sqrt 2 * c.kGf *
              (s.fPath.density * s.fPath.zoa) : ℝ) : ℂ) * s.fEps i j) := by
  simp only [UpdateHam]
  rw [if_pos (by exact ⟨h0, hij, by simp only [fNumNus]; omega⟩ :
    0 ≤ i ∧ i ≤ j ∧ j < fNumNus)]

/-! ### Concrete instances used by the witness theorems -/

/-- A concrete matter path for the witnesses. -/
noncomputable def wPath : NuPath := ⟨2.6, 0.5⟩

/-- Concrete values for the base-class constants, used by the witnesses. -/
noncomputable def wConsts : BaseConsts := ⟨1000000000, 1, 1⟩

/-- A concrete instance state (neutrino mode) for the witnesses. -/
noncomputable def wState : PMNS_NSI :=
  { fEps := fun _ _ => 0
    fGotES := true
    fHam := fun _ _ => 0
    fHms := fun _ _ => 0
    fPath := wPath
    fEnergy := 1
    fIsNuBar := false }

/-! ### Claim theorems -/

/-- C1: for every instance state with `fIsNuBar` false, after `UpdateHam`,
every entry with `0 ≤ i ≤ j ≤ 2` satisfies
`fHam[i][j] = fHms[i][j] / lv + kr2GNe * fEps[i][j]` with
`lv = 2 * kGeV2eV * fEnergy` and
`kr2GNe = sqrt 2 * kK2 * kGf * fPath.density * fPath.zoa`. -/
theorem updateHam_neutrino_entry (c : BaseConsts) (s : PMNS_NSI)
    (hnu : s.fIsNuBar = false) (i j : ℤ)
    (h0 : 0 ≤ i) (hij : i ≤ j) (h2 : j ≤ 2) :
    (UpdateHam c s).fHam i j =
      s.fHms i j / ((2 * c.kGeV2eV * s.fEnergy : ℝ) : ℂ)
      + ((Real.sqrt 2 * c.kK2 * c.kGf * s.fPath.density * s.fPath.zoa : ℝ) : ℂ)
        * s.fEps i j := by
  rw [updateHam_fHam_of_le c s i j h0 hij h2, if_pos hnu]
  push_cast
  ring

/-- Witness for C1 at the concrete state `wState`, entry (0, 1). -/
theorem updateHam_neutrino_entry_witness :
    (UpdateHam wConsts wState).fHam 0 1 =
      wState.fHms 0 1 / ((2 * wConsts.kGeV2eV * wState.fEnergy : ℝ) : ℂ)
      + ((Real.sqrt 2 * wConsts.kK2 * wConsts.kGf * wState.fPath.density
          * wState.fPath.zoa : ℝ) : ℂ) * wState.fEps 0 1 :=
  updateHam_neutrino_entry wConsts wState rfl 0 1
    (by decide) (by decide) (by decide)

/-- C2: from identical `fHms`, `fEps`, `fPath`, `fEnergy`, the run of
`UpdateHam` with `fIsNuBar` true yields
`conj (fHms[i][j]/lv - kr2GNe * fEps[i][j])` on every entry with
`0 ≤ i ≤ j ≤ 2`, while the run with `fIsNuBar` false yields
`fHms[i][j]/lv + kr2GNe * fEps[i][j]`: the matter-potential sign flips and
the combined term is conjugated. -/
theorem updateHam_nubar_relation (c : BaseConsts) (s : PMNS_NSI) (i j : ℤ)
    (h0 : 0 ≤ i) (hij : i ≤ j) (h2 : j ≤ 2) :
    (UpdateHam c { s with fIsNuBar := true }).fHam i j =
      star (s.fHms i j / ((2 * c.kGeV2eV * s.fEnergy : ℝ) : ℂ)
        - ((Real.sqrt 2 * c.kK2 * c.kGf * s.fPath.density
            * s.fPath.zoa : ℝ) : ℂ) * s.fEps i j)
    ∧ (UpdateHam c { s with fIsNuBar := false }).fHam i j =
      s.fHms i j / ((2 * c.kGeV2eV * s.fEnergy : ℝ) : ℂ)
      + ((Real.sqrt 2 * c.kK2 * c.kGf * s.fPath.density
          * s.fPath.zoa : ℝ) : ℂ) * s.fEps i j := by
  constructor
  · rw [updateHam_fHam_of_le c _ i j h0 hij h2]
    rw [if_neg (by simp : ¬ ({ s with fIsNuBar := true } : PMNS_NSI).fIsNuBar = false)]
    congr 1
    push_cast
    ring
  · rw [updateHam_fHam_of_le c _ i j h0 hij h2]
    rw [if_pos (by simp : ({ s with fIsNuBar := false } : PMNS_NSI).fIsNuBar = false)]
    push_cast
    ring

/-- Witness for C2 at the concrete state `wState`, entry (1, 2). -/
theorem updateHam_nubar_relation_witness :
    (UpdateHam wConsts { wState with fIsNuBar := true }).fHam 1 2 =
      star (wState.fHms 1 2 / ((2 * wConsts.kGeV2eV * wState.fEnergy : ℝ) : ℂ)
        - ((Real.sqrt 2 * wConsts.kK2 * wConsts.kGf * wState.fPath.density
            * wState.fPath.zoa : ℝ) : ℂ) * wState.fEps 1 2)
    ∧ (UpdateHam wConsts { wState with fIsNuBar := false }).fHam 1 2 =
      wState.fHms 1 2 / ((2 * wConsts.kGeV2eV * wState.fEnergy : ℝ) : ℂ)
      + ((Real.sqrt 2 * wConsts.kK2 * wConsts.kGf * wState.fPath.density
          * wState.fPath.zoa : ℝ) : ℂ) * wState.fEps 1 2 :=
  updateHam_nubar_relation wConsts wState 1 2 (by decide) (by decide) (by decide)

/-- C3: on a valid ordered pair, `SetEps` stores `val + 1` at the (0,0)
entry, `val` at the other diagonal entries (independently of `phase`), and
`val * (cos phase + i * sin phase)` off the diagonal; a subsequent `GetEps`
on the same pair returns exactly the stored value. -/
theorem setEps_getEps_roundtrip (s : PMNS_NSI) (flvi flvj : ℤ) (val phase : ℝ)
    (h0 : 0 ≤ flvi) (hij : flvi ≤ flvj) (h2 : flvj ≤ 2) :
    (SetEps s flvi flvj val phase).fEps flvi flvj =
      (if flvi = flvj then (val : ℂ) + (if flvi = 0 then 1 else 0)
       else (val : ℂ) * ⟨Real.cos phase, Real.sin phase⟩)
    ∧ GetEps (SetEps s flvi flvj val phase) flvi flvj =
      (SetEps s flvi flvj val phase).fEps flvi flvj := by
  refine ⟨?_, getEps_valid _ flvi flvj h0 hij h2⟩
  rw [setEps_valid s flvi flvj val phase h0 hij h2]
  show (if flvi = flvi ∧ flvj = flvj then nsiVal flvi flvj val phase
    else s.fEps flvi flvj) = _
  rw [if_pos ⟨rfl, rfl⟩, nsiVal]
  by_cases hd : flvi = flvj
  · subst hd
    by_cases hz : flvi = 0 <;> simp [hz]
  · simp [hd]

/-- Witness for C3 at the concrete state `wState`, pair (0, 0). -/
theorem setEps_getEps_roundtrip_witness :
    (SetEps wState 0 0 2 0).fEps 0 0 =
      (if (0 : ℤ) = 0 then ((2 : ℝ) : ℂ) + (if (0 : ℤ) = 0 then 1 else 0)
       else ((2 : ℝ) : ℂ) * ⟨Real.cos 0, Real.sin 0⟩)
    ∧ GetEps (SetEps wState 0 0 2 0) 0 0 = (SetEps wState 0 0 2 0).fEps 0 0 :=
  setEps_getEps_roundtrip wState 0 0 2 0 (by decide) (by decide) (by decide)

/-- `SetEps` never turns `fGotES` from false to true. -/
theorem setEps_gotES_mono (s : PMNS_NSI) (flvi flvj : ℤ) (val phase : ℝ) :
    (SetEps s flvi flvj val phase).fGotES = true → s.fGotES = true := by
  simp only [SetEps]
  split <;> split <;>
    first
      | exact id
      | (show (if _ = _ then s.fGotES else false) = true → s.fGotES = true
         split
         · exact id
         · exact fun h => absurd h (by simp))

/-- A `SetEps` call equals the call with its arguments put in order: after
the swap branch both run on the pair (smaller, larger). -/
theorem setEps_eq_ordered (s : PMNS_NSI) (flvi flvj : ℤ) (val phase : ℝ) :
    SetEps s flvi flvj val phase =
      SetEps s (min flvi flvj) (max flvi flvj) val phase := by
  by_cases hgt : flvi > flvj
  · have h1 : min flvi flvj = flvj := by omega
    have h2 : max flvi flvj = flvi := by omega
    rw [h1, h2]
    have hng : ¬ flvj > flvi := by omega
    simp only [SetEps, if_pos hgt, if_neg hng]
  · have h1 : min flvi flvj = flvi := by omega
    have h2 : max flvi flvj = flvj := by omega
    rw [h1, h2]

/-- C4: on a valid index pair (in either argument order), `SetEps` leaves
`fGotES` unchanged when the newly constructed value equals the stored
coefficient and clears it when the two differ; and no NSI parameter
operation (`SetEps` on any input, `SetNSI`, or any `SetEps_*` wrapper) ever
turns `fGotES` from false to true. -/
theorem nsi_gotES_invariant (s : PMNS_NSI) (flvi flvj : ℤ) (val phase : ℝ)
    (e1 e2 e3 e4 e5 e6 d1 d2 d3 a phi : ℝ) :
    (0 ≤ min flvi flvj → max flvi flvj ≤ 2 →
      ((s.fEps (min flvi flvj) (max flvi flvj) =
          nsiVal (min flvi flvj) (max flvi flvj) val phase →
          (SetEps s flvi flvj val phase).fGotES = s.fGotES)
       ∧ (s.fEps (min flvi flvj) (max flvi flvj) ≠
          nsiVal (min flvi flvj) (max flvi flvj) val phase →
          (SetEps s flvi flvj val phase).fGotES = false)))
    ∧ ((SetEps s flvi flvj val phase).fGotES = true → s.fGotES = true)
    ∧ ((SetNSI s e1 e2 e3 e4 e5 e6 d1 d2 d3).fGotES = true → s.fGotES = true)
    ∧ ((SetEps_ee s a).fGotES = true → s.fGotES = true)
    ∧ ((SetEps_mumu s a).fGotES = true → s.fGotES = true)
    ∧ ((SetEps_tautau s a).fGotES = true → s.fGotES = true)
    ∧ ((SetEps_emu s a phi).fGotES = true → s.fGotES = true)
    ∧ ((SetEps_etau s a phi).fGotES = true → s.fGotES = true)
    ∧ ((SetEps_mutau s a phi).fGotES = true → s.fGotES = true) := by
  refine ⟨fun hmin hmax => ?_, setEps_gotES_mono s flvi flvj val phase,
    ?_, setEps_gotES_mono s 0 0 a 0, setEps_gotES_mono s 1 1 a 0,
    setEps_gotES_mono s 2 2 a 0, setEps_gotES_mono s 0 1 a phi,
    setEps_gotES_mono s 0 2 a phi, setEps_gotES_mono s 1 2 a phi⟩
  · rw [setEps_eq_ordered s flvi flvj val phase,
      setEps_valid s (min flvi flvj) (max flvi flvj) val phase hmin
        min_le_max hmax]
    constructor
    · intro he
      show (if s.fEps (min flvi flvj) (max flvi flvj) =
          nsiVal (min flvi flvj) (max flvi flvj) val phase then s.fGotES
        else false) = s.fGotES
      rw [if_pos he]
    · intro he
      show (if s.fEps (min flvi flvj) (max flvi flvj) =
          nsiVal (min flvi flvj) (max flvi flvj) val phase then s.fGotES
        else false) = false
      rw [if_neg he]
  · intro h
    exact setEps_gotES_mono _ _ _ _ _ (setEps_gotES_mono _ _ _ _ _
      (setEps_gotES_mono _ _ _ _ _ (setEps_gotES_mono _ _ _ _ _
        (setEps_gotES_mono _ _ _ _ _ (setEps_gotES_mono _ _ _ _ _ h)))))

/-- Witness for C4: setting a coefficient to a different value clears the
flag at a concrete state. -/
theorem nsi_gotES_invariant_witness :
    (SetEps wState 1 1 3 0).fGotES = false :=
  ((nsi_gotES_invariant wState 1 1 3 0 0 0 0 0 0 0 0 0 0 0 0).1
    (by decide) (by decide)).2
    (by norm_num [wState, nsiVal])

/-- C5: for in-range indices given in reversed order, `SetEps` followed by
`GetEps` on that reversed pair behaves exactly as on the ordered pair, and
the resulting instance state is identical: the pair is unordered. -/
theorem setEps_swap_symm (s : PMNS_NSI) (flvi flvj : ℤ) (val phase : ℝ)
    (_h0 : 0 ≤ flvj) (hji : flvj < flvi) (_h2 : flvi ≤ 2) :
    SetEps s flvi flvj val phase = SetEps s flvj flvi val phase
    ∧ GetEps (SetEps s flvi flvj val phase) flvi flvj =
      GetEps (SetEps s flvj flvi val phase) flvj flvi := by
  have hgt : flvi > flvj := hji
  have hng : ¬ flvj > flvi := by omega
  constructor
  · simp only [SetEps, if_pos hgt, if_neg hng]
  · simp only [GetEps, GetEpsM, SetEps, if_pos hgt, if_neg hng]

/-- Witness for C5 at the concrete state `wState`, pair (2, 0). -/
theorem setEps_swap_symm_witness :
    SetEps wState 2 0 5 1 = SetEps wState 0 2 5 1
    ∧ GetEps (SetEps wState 2 0 5 1) 2 0 = GetEps (SetEps wState 0 2 5 1) 0 2 :=
  setEps_swap_symm wState 2 0 5 1 (by decide) (by decide) (by decide)

/-- C6: when the smaller of the two indices is negative or the larger
exceeds 2 (i.e. the pair is invalid even after the swap), `SetEps` returns
the state unchanged (no mutation of `fEps` or `fGotES`) and `GetEps`
returns complex zero, whatever the other index is. -/
theorem invalid_pair_noop (s : PMNS_NSI) (flvi flvj : ℤ) (val phase : ℝ)
    (h : min flvi flvj < 0 ∨ 2 < max flvi flvj) :
    SetEps s flvi flvj val phase = s ∧ GetEps s flvi flvj = 0 := by
  by_cases hgt : flvi > flvj
  · constructor
    · simp only [SetEps, if_pos hgt]
      rw [if_pos (by omega : flvj < 0 ∨ flvj > 2 ∨ flvi < flvj ∨ flvi > 2)]
    · simp only [GetEps, GetEpsM, if_pos hgt]
      rw [if_pos (by omega : flvj < 0 ∨ flvj > 2 ∨ flvi < flvj ∨ flvi > 2)]
  · constructor
    · simp only [SetEps, if_neg hgt]
      rw [if_pos (by omega : flvi < 0 ∨ flvi > 2 ∨ flvj < flvi ∨ flvj > 2)]
    · simp only [GetEps, GetEpsM, if_neg hgt]
      rw [if_pos (by omega : flvi < 0 ∨ flvi > 2 ∨ flvj < flvi ∨ flvj > 2)]

/-- Witness for C6 at the concrete state `wState`, invalid pair (3, 0). -/
theorem invalid_pair_noop_witness :
    SetEps wState 3 0 7 0 = wState ∧ GetEps wState 3 0 = 0 :=
  invalid_pair_noop wState 3 0 7 0 (by decide)

/-- `SetEps` never writes `fHam`. -/
theorem setEps_fHam (s : PMNS_NSI) (flvi flvj : ℤ) (val phase : ℝ) :
    (SetEps s flvi flvj val phase).fHam = s.fHam := by
  simp only [SetEps]
  split <;> split <;> rfl

/-- `SetEps` never writes `fHms`. -/
theorem setEps_fHms (s : PMNS_NSI) (flvi flvj : ℤ) (val phase : ℝ) :
    (SetEps s flvi flvj val phase).fHms = s.fHms := by
  simp only [SetEps]
  split <;> split <;> rfl

/-- `SetEps` never writes `fPath`. -/
theorem setEps_fPath (s : PMNS_NSI) (flvi flvj : ℤ) (val phase : ℝ) :
    (SetEps s flvi flvj val phase).fPath = s.fPath := by
  simp only [SetEps]
  split <;> split <;> rfl

/-- `SetEps` never writes `fEnergy`. -/
theorem setEps_fEnergy (s : PMNS_NSI) (flvi flvj : ℤ) (val phase : ℝ) :
    (SetEps s flvi flvj val phase).fEnergy = s.fEnergy := by
  simp only [SetEps]
  split <;> split <;> rfl

/-- `SetEps` never writes `fIsNuBar`. -/
theorem setEps_fIsNuBar (s : PMNS_NSI) (flvi flvj : ℤ) (val phase : ℝ) :
    (SetEps s flvi flvj val phase).fIsNuBar = s.fIsNuBar := by
  simp only [SetEps]
  split <;> split <;> rfl

/-- Entry-wise description of the coefficient store after a valid `SetEps`. -/
theorem setEps_fEps_valid (s : PMNS_NSI) (flvi flvj : ℤ) (val phase : ℝ)
    (h0 : 0 ≤ flvi) (hij : flvi ≤ flvj) (h2 : flvj ≤ 2) (a b : ℤ) :
    (SetEps s flvi flvj val phase).fEps a b =
      if a = flvi ∧ b = flvj then nsiVal flvi flvj val phase
      else s.fEps a b := by
  rw [setEps_valid s flvi flvj val phase h0 hij h2]

/-- After `SetNSI` with all nine arguments zero, the in-range entries of the
coefficient store are exactly `diag(1, 0, 0)`. -/
theorem setNSI_zero_fEps (s : PMNS_NSI) (i j : ℤ)
    (h0 : 0 ≤ i) (hij : i ≤ j) (h2 : j ≤ 2) :
    (SetNSI s 0 0 0 0 0 0 0 0 0).fEps i j =
      (if i = 0 ∧ j = 0 then 1 else 0) := by
  rw [SetNSI,
    setEps_fEps_valid _ 1 2 0 0 (by decide) (by decide) (by decide),
    setEps_fEps_valid _ 0 2 0 0 (by decide) (by decide) (by decide),
    setEps_fEps_valid _ 0 1 0 0 (by decide) (by decide) (by decide),
    setEps_fEps_valid _ 2 2 0 0 (by decide) (by decide) (by decide),
    setEps_fEps_valid _ 1 1 0 0 (by decide) (by decide) (by decide),
    setEps_fEps_valid _ 0 0 0 0 (by decide) (by decide) (by decide)]
  have hi : i = 0 ∨ i = 1 ∨ i = 2 := by omega
  have hj : j = 0 ∨ j = 1 ∨ j = 2 := by omega
  rcases hi with rfl | rfl | rfl <;> rcases hj with rfl | rfl | rfl <;>
    first
      | omega
      | norm_num [nsiVal]

/-- C7: `SetNSI` is the sequence of six `SetEps` calls
(0,0,eps_ee,0), (1,1,eps_mumu,0), (2,2,eps_tautau,0), (0,1,eps_emu,delta_emu),
(0,2,eps_etau,delta_etau), (1,2,eps_mutau,delta_mutau); after `SetNSI` with
all nine arguments zero the in-range coefficient store is `diag(1,0,0)`, and
a subsequent neutrino-mode `UpdateHam` yields
`Hms/(2E) + sqrt 2 * kGf * kK2 * density * zoa * diag(1,0,0)`. -/
theorem setNSI_decomposition (c : BaseConsts) (s : PMNS_NSI)
    (e_ee e_emu e_etau e_mumu e_mutau e_tautau d_emu d_etau d_mutau : ℝ)
    (i j : ℤ) (h0 : 0 ≤ i) (hij : i ≤ j) (h2 : j ≤ 2) :
    SetNSI s e_ee e_emu e_etau e_mumu e_mutau e_tautau d_emu d_etau d_mutau =
      SetEps (SetEps (SetEps (SetEps (SetEps (SetEps s 0 0 e_ee 0)
        1 1 e_mumu 0) 2 2 e_tautau 0) 0 1 e_emu d_emu) 0 2 e_etau d_etau)
        1 2 e_mutau d_mutau
    ∧ (SetNSI s 0 0 0 0 0 0 0 0 0).fEps i j = (if i = 0 ∧ j = 0 then 1 else 0)
    ∧ (UpdateHam c
        { SetNSI s 0 0 0 0 0 0 0 0 0 with fIsNuBar := false }).fHam i j =
      s.fHms i j / ((2 * c.kGeV2eV * s.fEnergy : ℝ) : ℂ)
      + ((Real.sqrt 2 * c.kGf * c.kK2 * s.fPath.density
          * s.fPath.zoa : ℝ) : ℂ) * (if i = 0 ∧ j = 0 then 1 else 0) := by
  refine ⟨rfl, setNSI_zero_fEps s i j h0 hij h2, ?_⟩
  rw [updateHam_fHam_of_le c _ i j h0 hij h2]
  rw [if_pos (rfl :
    ({ SetNSI s 0 0 0 0 0 0 0 0 0 with fIsNuBar := false } : PMNS_NSI).fIsNuBar
      = false)]
  have hEps : ({ SetNSI s 0 0 0 0 0 0 0 0 0 with
      fIsNuBar := false } : PMNS_NSI).fEps i j =
      (if i = 0 ∧ j = 0 then 1 else 0) := setNSI_zero_fEps s i j h0 hij h2
  have hHms : ({ SetNSI s 0 0 0 0 0 0 0 0 0 with
      fIsNuBar := false } : PMNS_NSI).fHms = s.fHms := by
    show (SetNSI s 0 0 0 0 0 0 0 0 0).fHms = s.fHms
    simp only [SetNSI, setEps_fHms]
  have hPath : ({ SetNSI s 0 0 0 0 0 0 0 0 0 with
      fIsNuBar := false } : PMNS_NSI).fPath = s.fPath := by
    show (SetNSI s 0 0 0 0 0 0 0 0 0).fPath = s.fPath
    simp only [SetNSI, setEps_fPath]
  have hE : ({ SetNSI s 0 0 0 0 0 0 0 0 0 with
      fIsNuBar := false } : PMNS_NSI).fEnergy = s.fEnergy := by
    show (SetNSI s 0 0 0 0 0 0 0 0 0).fEnergy = s.fEnergy
    simp only [SetNSI, setEps_fEnergy]
  rw [hEps, hHms, hPath, hE]
  push_cast
  ring

/-- Witness for C7 at the concrete state `wState`, entry (0, 0). -/
theorem setNSI_decomposition_witness :
    SetNSI wState 1 2 3 4 5 6 7 8 9 =
      SetEps (SetEps (SetEps (SetEps (SetEps (SetEps wState 0 0 1 0)
        1 1 4 0) 2 2 6 0) 0 1 2 7) 0 2 3 8) 1 2 5 9
    ∧ (SetNSI wState 0 0 0 0 0 0 0 0 0).fEps 0 0 =
        (if (0 : ℤ) = 0 ∧ (0 : ℤ) = 0 then 1 else 0)
    ∧ (UpdateHam wConsts
        { SetNSI wState 0 0 0 0 0 0 0 0 0 with fIsNuBar := false }).fHam 0 0 =
      wState.fHms 0 0 / ((2 * wConsts.kGeV2eV * wState.fEnergy : ℝ) : ℂ)
      + ((Real.sqrt 2 * wConsts.kGf * wConsts.kK2 * wState.fPath.density
          * wState.fPath.zoa : ℝ) : ℂ)
        * (if (0 : ℤ) = 0 ∧ (0 : ℤ) = 0 then 1 else 0) :=
  setNSI_decomposition wConsts wState 1 2 3 4 5 6 7 8 9 0 0
    (by decide) (by decide) (by decide)

/-- C8: `UpdateHam` leaves `fEps` and `fGotES` unchanged, leaves every
`fHam` entry outside `0 ≤ i ≤ j ≤ 2` unchanged, and the entries it writes
depend only on `fHms`, `fEps`, `fPath`, `fEnergy` and `fIsNuBar` (two states
agreeing on those five fields get identical written entries, whatever their
previous `fHam`). -/
theorem updateHam_frame (c : BaseConsts) (s : PMNS_NSI) :
    (UpdateHam c s).fEps = s.fEps
    ∧ (UpdateHam c s).fGotES = s.fGotES
    ∧ (∀ i j : ℤ, ¬ (0 ≤ i ∧ i ≤ j ∧ j ≤ 2) →
        (UpdateHam c s).fHam i j = s.fHam i j)
    ∧ (∀ t : PMNS_NSI, s.fHms = t.fHms → s.fEps = t.fEps →
        s.fPath = t.fPath → s.fEnergy = t.fEnergy → s.fIsNuBar = t.fIsNuBar →
        ∀ i j : ℤ, 0 ≤ i → i ≤ j → j ≤ 2 →
          (UpdateHam c s).fHam i j = (UpdateHam c t).fHam i j) := by
  refine ⟨rfl, rfl, ?_, ?_⟩
  · intro i j h
    show (if 0 ≤ i ∧ i ≤ j ∧ j < fNumNus then _ else s.fHam i j) = s.fHam i j
    rw [if_neg (by simp only [fNumNus]; omega)]
  · intro t hHms hEps hPath hE hNu i j h0 hij h2
    rw [updateHam_fHam_of_le c s i j h0 hij h2,
      updateHam_fHam_of_le c t i j h0 hij h2,
      hHms, hEps, hPath, hE, hNu]

/-- Witness for C8 at the concrete state `wState`: an unwritten entry is
preserved and a written entry ignores the previous `fHam`. -/
theorem updateHam_frame_witness :
    (UpdateHam wConsts wState).fEps = wState.fEps
    ∧ (UpdateHam wConsts wState).fGotES = wState.fGotES
    ∧ (UpdateHam wConsts wState).fHam 2 0 = wState.fHam 2 0
    ∧ (UpdateHam wConsts wState).fHam 0 1 =
      (UpdateHam wConsts { wState with fHam := fun _ _ => 1 }).fHam 0 1 :=
  ⟨(updateHam_frame wConsts wState).1,
   (updateHam_frame wConsts wState).2.1,
   (updateHam_frame wConsts wState).2.2.1 2 0 (by decide),
   (updateHam_frame wConsts wState).2.2.2 { wState with fHam := fun _ _ => 1 }
     rfl rfl rfl rfl rfl 0 1 (by decide) (by decide) (by decide)⟩

/-- C9: `GetEps` never mutates the instance state: the state component of
the call is the input state for every index pair (valid, swapped or
invalid), so `fEps`, `fGotES` and `fHam` are identical before and after. -/
theorem getEpsM_pure (s : PMNS_NSI) (flvi flvj : ℤ) :
    (GetEpsM s flvi flvj).2 = s := by
  simp only [GetEpsM]
  split <;> split <;> rfl

/-- C10: immediately after construction, `GetEps` returns 1 on the (0,0)
pair and 0 on every other valid pair `i ≤ j`, whatever base-class state the
base constructor produced. -/
theorem init_getEps (base : PMNS_NSI) (i j : ℤ)
    (h0 : 0 ≤ i) (hij : i ≤ j) (h2 : j ≤ 2) :
    GetEps (init base) i j = (if i = 0 ∧ j = 0 then 1 else 0) := by
  rw [getEps_valid _ i j h0 hij h2, init, setNSI_zero_fEps _ i j h0 hij h2]

/-- Witness for C10 at the concrete base state `wState`, pair (0,0). -/
theorem init_getEps_witness :
    GetEps (init wState) 0 0 = (if (0 : ℤ) = 0 ∧ (0 : ℤ) = 0 then 1 else 0) :=
  init_getEps wState 0 0 (by decide) (by decide) (by decide)

end OscProb
